import Mathlib

/-!
Verification development for the `vantage_qlink` command client
(`custom_components/vantage_qlink/command_client/`): a shallow embedding in
Lean 4 of the connection wrapper (`connection.py`), the command session
(`commands.py`) and the load-control facade (`load.py`), together with
theorems about framing, event filtering, error translation, lock discipline
and parameter encoding.
-/

namespace VantageQLink

/-- Error taxonomy of the client (`errors.py` is referenced by the sources:
`ClientConnectionError`, `ClientTimeoutError`, `CommandError`).  Modelled from
the spec: errors are tagged as connection, timeout or protocol errors, the
protocol error carrying a numeric code. -/
inductive ClientError where
  | connectionError
  | timeoutError
  | commandError (code : Nat)
  deriving DecidableEq, Repr

/-- Whitespace characters relevant to the line-based protocol (what Python
strips with `str.rstrip()` on ASCII protocol lines and what separates
tokens). -/
def isWs (c : Char) : Bool :=
  c = ' ' || c = '\t' || c = '\n' || c = '\r'

/-- Python `str.rstrip()` on a protocol line: remove trailing whitespace. -/
def pyRstrip (s : String) : String :=
  String.mk ((s.data.reverse.dropWhile isWs).reverse)

/-- Python `str.startswith(p)`. -/
def pyStartsWith (s p : String) : Bool :=
  p.data.isPrefixOf s.data

/-- Python slicing `s[2:]`: every character from index 2 on (total, empty when
the string is shorter). -/
def pyDropTwo (s : String) : String :=
  String.mk (s.data.drop 2)

/-- The unsolicited-event filter of `CommandClient.raw_request`
(commands.py line 128): a trimmed line starting with `S:`, `L:`, `LE` or
`LC` is an interleaved event message. -/
def isEventLine (s : String) : Bool :=
  ["S:", "L:", "LE", "LC"].any (fun x => pyStartsWith s x)

/-- `CommandClient._parse_command_error` (commands.py lines 155-158):
`int(message)` on the error line, modelled as a decimal-digit fold (only the
all-digit literal "257" ever reaches it). -/
def parse_command_error (message : String) : ClientError :=
  ClientError.commandError
    (message.data.foldl (fun acc c => acc * 10 + (c.toNat - 48)) 0)

/-- One observable outcome of `conn.readuntil` inside the read loop: either a
line arrives, or the read times out, or the transport faults. -/
inductive ReadEvent where
  | line (s : String)
  | timeoutEv
  | connErr
  deriving DecidableEq, Repr

/-- The read loop of `CommandClient.raw_request` (commands.py lines 117-134),
over the sequence of `readuntil` outcomes: each received line is
right-stripped; the literal "257" aborts with the parsed command error; event
lines are skipped; the first remaining line is appended to `response_lines`
and the loop breaks.  An exhausted event stream means the next read would
block past its timeout. -/
def readResponseLines : List ReadEvent → Except ClientError (List String)
  | [] => Except.error ClientError.timeoutError
  | ReadEvent.timeoutEv :: _ => Except.error ClientError.timeoutError
  | ReadEvent.connErr :: _ => Except.error ClientError.connectionError
  | ReadEvent.line s :: rest =>
    let response_line := pyRstrip s
    if response_line = "257" then
      Except.error (parse_command_error response_line)
    else if isEventLine response_line then
      readResponseLines rest
    else
      Except.ok [response_line]

/-- `CommandResponse` (commands.py lines 20-26). -/
structure CommandResponse where
  command : String
  args : List String
  data : List String
  deriving DecidableEq, Repr

/-- Longest run of non-whitespace characters at the head of a line, with the
remainder (the span step of the tokenizer). -/
def spanNotWs : List Char → List Char × List Char
  | [] => ([], [])
  | c :: cs =>
    if isWs c then ([], c :: cs)
    else (c :: (spanNotWs cs).1, (spanNotWs cs).2)

/-- Characters of a quoted run up to (excluding) the closing double quote,
with the remainder after that quote.  An unterminated quote takes the rest of
the line as the token (the documented fallback policy). -/
def splitQuoted : List Char → List Char × List Char
  | [] => ([], [])
  | c :: cs =>
    if c = '"' then ([], cs)
    else (c :: (splitQuoted cs).1, (splitQuoted cs).2)

theorem spanNotWs_snd_length_le (cs : List Char) :
    (spanNotWs cs).2.length ≤ cs.length := by
  induction cs with
  | nil => simp [spanNotWs]
  | cons c cs ih =>
    simp only [spanNotWs]
    split
    · simp
    · exact Nat.le_succ_of_le ih

theorem splitQuoted_snd_length_le (cs : List Char) :
    (splitQuoted cs).2.length ≤ cs.length := by
  induction cs with
  | nil => simp [splitQuoted]
  | cons c cs ih =>
    simp only [splitQuoted]
    split
    · simp
    · exact Nat.le_succ_of_le ih

/-- Modelled from the spec: `tokenize` of the wire codec (the source file
`utils.py` providing `tokenize_response` is not part of the sources given).
Splits a response line into whitespace-delimited tokens, treating a
double-quoted run (including embedded spaces) as one token with the quotes
stripped; an unterminated quote takes the rest of the line as the token. -/
def tokenizeChars : List Char → List (List Char)
  | [] => []
  | c :: cs =>
    if isWs c then tokenizeChars cs
    else if c = '"' then
      (splitQuoted cs).1 :: tokenizeChars (splitQuoted cs).2
    else
      (c :: (spanNotWs cs).1) :: tokenizeChars (spanNotWs cs).2
termination_by l => l.length
decreasing_by
  · simp
  · exact Nat.lt_succ_of_le (splitQuoted_snd_length_le cs)
  · exact Nat.lt_succ_of_le (spanNotWs_snd_length_le cs)

/-- Modelled from the spec: `tokenize_response` on a response line, returning
string tokens. -/
def tokenize_response (s : String) : List String :=
  (tokenizeChars s.data).map String.mk

/-- Structured decode performed by `CommandClient.command` (commands.py lines
90-92): destructure the response lines into leading data lines and the return
line, tokenize the return line, strip the first two characters of the first
token to recover the command, and keep the remaining tokens as arguments.
Either destructuring fails (empty list) as a raised `ValueError`, modelled as
`none`. -/
def decode_command (lines : List String) : Option CommandResponse :=
  match lines.getLast? with
  | none => none
  | some return_line =>
    match tokenize_response return_line with
    | [] => none
    | command :: args => some ⟨pyDropTwo command, args, lines.dropLast⟩

/-- Classification of a `readuntil` outcome as an interleaved event line
(after right-stripping, as the read loop does). -/
def isEventRead : ReadEvent → Bool
  | ReadEvent.line s => isEventLine (pyRstrip s)
  | _ => false

theorem decode_command_data_eq (lines : List String) (resp : CommandResponse)
    (h : decode_command lines = some resp) : resp.data = lines.dropLast := by
  unfold decode_command at h
  split at h
  · exact absurd h (by simp)
  · split at h
    · exact absurd h (by simp)
    · cases h
      rfl

theorem decode_command_data_mem (lines : List String) (resp : CommandResponse)
    (h : decode_command lines = some resp) : ∀ d ∈ resp.data, d ∈ lines := by
  rw [decode_command_data_eq lines resp h]
  intro d hd
  exact List.mem_of_mem_dropLast hd

/-- Claim C1: every response line that (after trimming) begins with one of
the unsolicited-event prefixes `S:`, `L:`, `LE`, `LC` is discarded by the
read loop of `raw_request`: whenever the loop returns successfully, none of
the returned lines is an event line, and consequently no event line appears
in the data lines of the `CommandResponse` decoded by `command`. -/
theorem raw_request_discards_event_lines (stream : List ReadEvent)
    (lines : List String) (h : readResponseLines stream = Except.ok lines) :
    (∀ l ∈ lines, isEventLine l = false) ∧
    (∀ resp, decode_command lines = some resp →
      ∀ d ∈ resp.data, isEventLine d = false) := by
  induction stream with
  | nil => exact absurd h (by simp [readResponseLines])
  | cons ev rest ih =>
    cases ev with
    | timeoutEv => exact absurd h (by simp [readResponseLines])
    | connErr => exact absurd h (by simp [readResponseLines])
    | line s =>
      simp only [readResponseLines] at h
      split at h
      · exact absurd h (by simp)
      · split at h
        · exact ih h
        · rename_i herr hev
          have hlines : lines = [pyRstrip s] := by
            cases h; rfl
          subst hlines
          have hevf : isEventLine (pyRstrip s) = false :=
            Bool.not_eq_true _ ▸ hev
          refine ⟨by simp [hevf], fun resp hresp d hd => ?_⟩
          have hmem := decode_command_data_mem _ _ hresp d hd
          simp only [List.mem_singleton] at hmem
          subst hmem
          exact hevf

/-- Claim C1 witness: the spec example stream, with an interleaved `S:` event
line before the terminal `R:GVL 45` line. -/
theorem raw_request_discards_event_lines_witness :
    readResponseLines [ReadEvent.line "S:1 2 3\r", ReadEvent.line "R:GVL 45\r"]
      = Except.ok ["R:GVL 45"] ∧
    (∀ l ∈ ["R:GVL 45"], isEventLine l = false) ∧
    (∀ resp, decode_command ["R:GVL 45"] = some resp →
      ∀ d ∈ resp.data, isEventLine d = false) :=
  ⟨by rfl, raw_request_discards_event_lines
    [ReadEvent.line "S:1 2 3\r", ReadEvent.line "R:GVL 45\r"]
    ["R:GVL 45"] (by rfl)⟩

/-- Claim C2: a response line whose trimmed form is the literal `"257"`,
reached after any run of interleaved event lines, aborts the exchange with
the parsed command error carrying code 257; no `CommandResponse` is
returned. -/
theorem raw_request_error_257 (evs : List ReadEvent) (l : String)
    (rest : List ReadEvent) (hevs : ∀ e ∈ evs, isEventRead e = true)
    (hl : pyRstrip l = "257") :
    readResponseLines (evs ++ ReadEvent.line l :: rest)
      = Except.error (ClientError.commandError 257) := by
  induction evs with
  | nil =>
    have h257 : parse_command_error "257" = ClientError.commandError 257 := by
      decide
    simp [readResponseLines, hl, h257]
  | cons e evs ih =>
    have he : isEventRead e = true := hevs e (List.mem_cons_self e evs)
    have htail : ∀ x ∈ evs, isEventRead x = true :=
      fun x hx => hevs x (List.mem_cons_of_mem e hx)
    cases e with
    | timeoutEv => exact absurd he (by simp [isEventRead])
    | connErr => exact absurd he (by simp [isEventRead])
    | line s =>
      have hev : isEventLine (pyRstrip s) = true := he
      have hne : ¬(pyRstrip s = "257") := by
        intro hcontra
        rw [hcontra] at hev
        exact absurd hev (by decide)
      simp only [List.cons_append, readResponseLines, if_neg hne, hev,
        if_pos rfl]
      exact ih htail

/-- Claim C2 witness: an event line followed by a lone `257` line. -/
theorem raw_request_error_257_witness :
    (∀ e ∈ [ReadEvent.line "S:1 2 3\r"], isEventRead e = true) ∧
    pyRstrip "257\r" = "257" ∧
    readResponseLines [ReadEvent.line "S:1 2 3\r", ReadEvent.line "257\r"]
      = Except.error (ClientError.commandError 257) :=
  ⟨by decide, by decide,
    raw_request_error_257 [ReadEvent.line "S:1 2 3\r"] "257\r" []
      (by decide) (by decide)⟩

/-- Claim C4 counterexample: a response stream with one accepted non-event,
non-error line before a terminal line.  The claim states that `raw_request`
returns both lines; the read loop in fact breaks at the first accepted line
and returns only it. -/
theorem raw_request_multi_line_counterexample :
    readResponseLines [ReadEvent.line "data1\r", ReadEvent.line "R:GVL 45\r"]
      = Except.ok ["data1"] ∧
    (Except.ok ["data1"] : Except ClientError (List String))
      ≠ Except.ok ["data1", "R:GVL 45"] := by
  constructor
  · rfl
  · intro hcontra
    exact absurd (Except.ok.inj hcontra) (by decide)

/-- Claim C4 (amended): the read loop of `raw_request` terminates at the
first non-event, non-error line and returns it as a single-element list, so
the `data` field of every decoded `CommandResponse` is empty; the structural
support for leading data lines exists only in `command`'s destructuring. -/
theorem raw_request_returns_single_line (stream : List ReadEvent)
    (lines : List String) (h : readResponseLines stream = Except.ok lines) :
    lines.length = 1 ∧
    ∀ resp, decode_command lines = some resp → resp.data = [] := by
  induction stream with
  | nil => exact absurd h (by simp [readResponseLines])
  | cons ev rest ih =>
    cases ev with
    | timeoutEv => exact absurd h (by simp [readResponseLines])
    | connErr => exact absurd h (by simp [readResponseLines])
    | line s =>
      simp only [readResponseLines] at h
      split at h
      · exact absurd h (by simp)
      · split at h
        · exact ih h
        · have hlines : lines = [pyRstrip s] := by
            cases h; rfl
          subst hlines
          refine ⟨rfl, fun resp hresp => ?_⟩
          rw [decode_command_data_eq _ _ hresp]
          rfl

/-- Claim C4 witness: a lone terminal line yields a singleton line list and
an empty data field. -/
theorem raw_request_returns_single_line_witness :
    readResponseLines [ReadEvent.line "R:GVL 45\r"] = Except.ok ["R:GVL 45"] ∧
    ((["R:GVL 45"] : List String).length = 1 ∧
      ∀ resp, decode_command ["R:GVL 45"] = some resp → resp.data = []) :=
  ⟨by rfl, raw_request_returns_single_line [ReadEvent.line "R:GVL 45\r"]
    ["R:GVL 45"] (by rfl)⟩

/-- Claim C6: for every successful exchange, the decoded `CommandResponse`
has `command` equal to the terminal line's first token with its first two
characters stripped, `args` equal to the remaining tokens of the terminal
line in order, and `data` equal to the accepted lines read before the
terminal line. -/
theorem command_decode_structure (stream : List ReadEvent)
    (lines : List String) (resp : CommandResponse)
    (_hex : readResponseLines stream = Except.ok lines)
    (h : decode_command lines = some resp) :
    ∃ return_line, lines.getLast? = some return_line ∧
      ∃ command args, tokenize_response return_line = command :: args ∧
        resp.command = pyDropTwo command ∧ resp.args = args ∧
        resp.data = lines.dropLast := by
  unfold decode_command at h
  split at h
  · exact absurd h (by simp)
  · rename_i return_line hlast
    split at h
    · exact absurd h (by simp)
    · rename_i command args htok
      cases h
      exact ⟨return_line, hlast, command, args, htok, rfl, rfl, rfl⟩

/-- Claim C6 witness: the spec end-to-end example, terminal line `R:GVL 67`
decoding to command `GVL` with argument list containing `67`. -/
theorem command_decode_structure_witness :
    readResponseLines [ReadEvent.line "R:GVL 67\r"] = Except.ok ["R:GVL 67"] ∧
    decode_command ["R:GVL 67"]
      = some (CommandResponse.mk "GVL" ["67"] []) ∧
    (∃ return_line, (["R:GVL 67"] : List String).getLast? = some return_line ∧
      ∃ command args, tokenize_response return_line = command :: args ∧
        (CommandResponse.mk "GVL" ["67"] []).command = pyDropTwo command ∧
        (CommandResponse.mk "GVL" ["67"] []).args = args ∧
        (CommandResponse.mk "GVL" ["67"] []).data
          = (["R:GVL 67"] : List String).dropLast) :=
  ⟨by rfl, by simp [decode_command, tokenize_response, tokenizeChars,
      spanNotWs, splitQuoted, isWs, pyDropTwo],
    command_decode_structure [ReadEvent.line "R:GVL 67\r"] ["R:GVL 67"]
      (CommandResponse.mk "GVL" ["67"] []) (by rfl)
      (by simp [decode_command, tokenize_response, tokenizeChars,
        spanNotWs, splitQuoted, isWs, pyDropTwo])⟩

/-- State of one asyncio lock, instrumented with acquire/release counters so
that "released exactly once" is expressible. -/
structure LockState where
  held : Bool
  acqCount : Nat
  relCount : Nat
  deriving DecidableEq, Repr

def acquireLock (l : LockState) : LockState :=
  ⟨true, l.acqCount + 1, l.relCount⟩

def releaseLock (l : LockState) : LockState :=
  ⟨false, l.acqCount, l.relCount + 1⟩

/-- Python `async with self._command_lock` (commands.py line 112): acquire
the lock, run the body, and release on every exit path — a raised exception
inside the body still runs the release before propagating (the semantics of
`async with`). -/
def withCommandLock (l : LockState) (body : Except ClientError (List String)) :
    Except ClientError (List String) × LockState :=
  let l1 := acquireLock l
  (body, releaseLock l1)

/-- The body of `CommandClient.raw_request` under the command lock
(commands.py lines 112-138): write the request line (which may fail with a
connection error while not connected or on an I/O fault), then run the read
loop over the incoming events. -/
def raw_request_locked (l : LockState) (writeOk : Bool)
    (stream : List ReadEvent) :
    Except ClientError (List String) × LockState :=
  withCommandLock l
    (if writeOk then readResponseLines stream
     else Except.error ClientError.connectionError)

/-- Claim C3: on every exit path of the exchange — success, protocol error
sentinel, transport error or read timeout — the exchange lock is released
exactly once (release counter up by one, acquire counter up by one), the
lock is free afterwards so a subsequent request can acquire it, and any
error of the body propagates to the caller unchanged after the release. -/
theorem command_lock_released (l : LockState) (writeOk : Bool)
    (stream : List ReadEvent) :
    (raw_request_locked l writeOk stream).2.held = false ∧
    (raw_request_locked l writeOk stream).2.relCount = l.relCount + 1 ∧
    (raw_request_locked l writeOk stream).2.acqCount = l.acqCount + 1 ∧
    (writeOk = false →
      (raw_request_locked l writeOk stream).1
        = Except.error ClientError.connectionError) ∧
    (∀ e, writeOk = true → readResponseLines stream = Except.error e →
      (raw_request_locked l writeOk stream).1 = Except.error e) := by
  refine ⟨rfl, rfl, rfl, ?_, ?_⟩
  · intro hw
    simp [raw_request_locked, withCommandLock, hw]
  · intro e hw he
    simp [raw_request_locked, withCommandLock, hw, he]

/-- A command transmitted through the typed facade.  Modelled from the spec:
`Interface.invoke` (its source file `base.py` is not part of the sources
given) sends the named command with the contractor number and the given
integer arguments over the command session. -/
structure SentCommand where
  contractor_number : Int
  name : String
  args : List Int
  deriving DecidableEq, Repr

/-- Modelled from the spec: the transmission step of `Interface.invoke`,
recorded verbatim. -/
def invoke (contractor_number : Int) (name : String) (args : List Int) :
    SentCommand :=
  ⟨contractor_number, name, args⟩

/-- The clamp of `LoadInterface.ramp` (load.py line 51):
`max(min(level, 100), 0)`. -/
def clamp_level (level : Int) : Int :=
  max (min level 100) 0

/-- `LoadInterface.ramp` (load.py lines 37-55): clamp the level to 0..100,
then invoke `VLO` with the contractor number, the clamped level and the fade
time. -/
def ramp (contractor_number level time : Int) : SentCommand :=
  invoke contractor_number "VLO" [clamp_level level, time]

/-- `LoadInterface.set_level` (load.py lines 14-22): passthrough to `ramp`
with a zero-second fade. -/
def set_level (contractor_number level : Int) : SentCommand :=
  ramp contractor_number level 0

/-- Claim C8: `ramp` clamps the level into [0,100] before transmitting the
`VLO` command; `set_level id 150` transmits level 100, `set_level id (-5)`
transmits level 0, and a level already in [0,100] is transmitted
unchanged. -/
theorem ramp_clamps_level (contractor_number level time : Int) :
    ramp contractor_number level time
      = invoke contractor_number "VLO" [clamp_level level, time] ∧
    0 ≤ clamp_level level ∧ clamp_level level ≤ 100 ∧
    (0 ≤ level → level ≤ 100 → clamp_level level = level) ∧
    set_level contractor_number 150
      = invoke contractor_number "VLO" [100, 0] ∧
    set_level contractor_number (-5)
      = invoke contractor_number "VLO" [0, 0] := by
  refine ⟨rfl, ?_, ?_, ?_, ?_, ?_⟩
  · simp [clamp_level]
  · simp only [clamp_level]
    omega
  · intro h0 h100
    simp only [clamp_level]
    omega
  · simp [set_level, ramp, clamp_level]
  · simp [set_level, ramp, clamp_level]

/-- Claim C8 witness: an in-range level is transmitted unchanged. -/
theorem ramp_clamps_level_witness :
    ramp 7 42 3 = invoke 7 "VLO" [clamp_level 42, 3] ∧ clamp_level 42 = 42 :=
  ⟨(ramp_clamps_level 7 42 3).1,
    (ramp_clamps_level 7 42 3).2.2.2.1 (by decide) (by decide)⟩

/-- Stream state of `BaseConnection` (connection.py lines 14-31): nullable
reader and writer; the writer may have initiated or completed closing. -/
structure ConnState where
  readerSome : Bool
  writerSome : Bool
  writerClosing : Bool
  deriving DecidableEq, Repr

/-- `BaseConnection.closed` (connection.py lines 75-78): the writer is absent
or closing. -/
def ConnState.closed (c : ConnState) : Bool :=
  !c.writerSome || c.writerClosing

/-- `BaseConnection.readuntil` (connection.py lines 97-119) over an abstract
view of the incoming stream: `incoming` is the data that arrives before the
read timeout elapses, and `faultBeforeDelim` records whether the stream
closes or an I/O fault occurs before the delimiter is seen.  The guard
`self._reader is None or self.closed` fails with a connection error;
otherwise `asyncio.StreamReader.readuntil` returns the data up to and
including the separator, an `asyncio.TimeoutError` from `wait_for` maps to
the timeout error and `OSError` or `IncompleteReadError` map to the
connection error; the data is decoded as text. -/
def readuntil (c : ConnState) (incoming : List Char) (delim : Char)
    (faultBeforeDelim : Bool) : Except ClientError String :=
  if !c.readerSome || c.closed then
    Except.error ClientError.connectionError
  else if delim ∈ incoming then
    Except.ok (String.mk (incoming.takeWhile (fun x => x != delim) ++ [delim]))
  else if faultBeforeDelim then
    Except.error ClientError.connectionError
  else
    Except.error ClientError.timeoutError

/-- Claim C7: `readuntil` fails with the connection error when the transport
is not open; with the timeout error when the delimiter does not arrive
within the timeout; with the connection error when the stream closes or
faults before the delimiter is seen; and otherwise returns the text up to
and including the delimiter. -/
theorem readuntil_contract (c : ConnState) (incoming : List Char)
    (delim : Char) (faultBeforeDelim : Bool) :
    ((!c.readerSome || c.closed) = true →
      readuntil c incoming delim faultBeforeDelim
        = Except.error ClientError.connectionError) ∧
    ((!c.readerSome || c.closed) = false → delim ∉ incoming →
      faultBeforeDelim = false →
      readuntil c incoming delim faultBeforeDelim
        = Except.error ClientError.timeoutError) ∧
    ((!c.readerSome || c.closed) = false → delim ∉ incoming →
      faultBeforeDelim = true →
      readuntil c incoming delim faultBeforeDelim
        = Except.error ClientError.connectionError) ∧
    ((!c.readerSome || c.closed) = false → delim ∈ incoming →
      readuntil c incoming delim faultBeforeDelim
        = Except.ok
            (String.mk
              (incoming.takeWhile (fun x => x != delim) ++ [delim]))) := by
  refine ⟨?_, ?_, ?_, ?_⟩
  · intro hg
    simp [readuntil, hg]
  · intro hg hd hf
    simp [readuntil, hg, hd, hf]
  · intro hg hd hf
    simp [readuntil, hg, hd, hf]
  · intro hg hd
    simp [readuntil, hg, hd]

/-- Claim C7 witness: the four contract cases at concrete connection states
and streams (closed transport; open with no delimiter arriving; open with a
fault before the delimiter; open with the delimiter present). -/
theorem readuntil_contract_witness :
    readuntil (ConnState.mk true false false) ['a', '\r'] '\r' false
      = Except.error ClientError.connectionError ∧
    readuntil (ConnState.mk true true false) ['a', 'b'] '\r' false
      = Except.error ClientError.timeoutError ∧
    readuntil (ConnState.mk true true false) ['a', 'b'] '\r' true
      = Except.error ClientError.connectionError ∧
    readuntil (ConnState.mk true true false) ['a', '\r', 'b'] '\r' false
      = Except.ok "a\r" :=
  ⟨(readuntil_contract (ConnState.mk true false false) ['a', '\r'] '\r'
      false).1 (by decide),
   (readuntil_contract (ConnState.mk true true false) ['a', 'b'] '\r'
      false).2.1 (by decide) (by decide) (by decide),
   (readuntil_contract (ConnState.mk true true false) ['a', 'b'] '\r'
      true).2.2.1 (by decide) (by decide) (by decide),
   (readuntil_contract (ConnState.mk true true false) ['a', '\r', 'b'] '\r'
      false).2.2.2 (by decide) (by decide)⟩

/-- One connect attempt's outcome (`asyncio.open_connection` bounded by
`asyncio.wait_for`): success, timeout, or an OS-level failure. -/
inductive ConnectOutcome where
  | success
  | timedOut
  | osError
  deriving DecidableEq, Repr

/-- `BaseConnection.open` (connection.py lines 33-57): a no-op when the
writer is present and not closing; otherwise one connect attempt, assigning
both streams only on success.  A timeout maps to the timeout error and an
`OSError` to the connection error; in either failure the exception skips the
tuple assignment so both streams are left untouched.  Returns the call
result, the connection state after the call, and the number of connect
attempts made. -/
def open_connection (c : ConnState) (outcome : ConnectOutcome) :
    Except ClientError Unit × ConnState × Nat :=
  if c.writerSome && !c.writerClosing then
    (Except.ok (), c, 0)
  else
    match outcome with
    | ConnectOutcome.success => (Except.ok (), ConnState.mk true true false, 1)
    | ConnectOutcome.timedOut => (Except.error ClientError.timeoutError, c, 1)
    | ConnectOutcome.osError =>
      (Except.error ClientError.connectionError, c, 1)

/-- `CommandClient.get_connection` (commands.py lines 140-153): under the
connection lock, open a new connection iff the current one is closed. -/
def get_connection (c : ConnState) (outcome : ConnectOutcome) :
    Except ClientError Unit × ConnState × Nat :=
  if c.closed then open_connection c outcome else (Except.ok (), c, 0)

/-- The connection phase of `CommandClient.raw_request` (commands.py lines
109-114): obtain a connection handle, opening one if the current connection
is closed, and only then write the request line.  Returns the exchange
result, the connection state, the number of connect attempts, and whether
the request line was written. -/
def raw_request_pipeline (c : ConnState) (outcome : ConnectOutcome)
    (writeOk : Bool) (stream : List ReadEvent) :
    Except ClientError (List String) × ConnState × Nat × Bool :=
  match get_connection c outcome with
  | (Except.error e, c2, n) => (Except.error e, c2, n, false)
  | (Except.ok _, c2, n) =>
    ((if writeOk then readResponseLines stream
      else Except.error ClientError.connectionError), c2, n, true)

theorem closed_iff_guard (c : ConnState) :
    c.closed = true ↔ (c.writerSome && !c.writerClosing) = false := by
  rcases c with ⟨r, w, cl⟩
  cases w <;> cases cl <;> simp [ConnState.closed]

/-- Claim C9: a request issued while the connection is closed triggers
exactly one connect attempt before the request line is written, and a
successful attempt leaves the connection open (transparent reopening); if
the connection is already open, no connect attempt is made; if the connect
attempt fails, the request line is never written. -/
theorem request_connects_once (c : ConnState) (outcome : ConnectOutcome)
    (writeOk : Bool) (stream : List ReadEvent) :
    (c.closed = true →
      (raw_request_pipeline c outcome writeOk stream).2.2.1 = 1) ∧
    (c.closed = false →
      (raw_request_pipeline c outcome writeOk stream).2.2.1 = 0 ∧
      (raw_request_pipeline c outcome writeOk stream).2.1 = c) ∧
    (c.closed = true → outcome = ConnectOutcome.success →
      ((raw_request_pipeline c outcome writeOk stream).2.1).closed = false ∧
      (raw_request_pipeline c outcome writeOk stream).2.2.2 = true) ∧
    (c.closed = true → outcome ≠ ConnectOutcome.success →
      (raw_request_pipeline c outcome writeOk stream).2.2.2 = false) := by
  refine ⟨?_, ?_, ?_, ?_⟩
  · intro hc
    have hg := (closed_iff_guard c).mp hc
    cases outcome <;>
      simp [raw_request_pipeline, get_connection, open_connection, hc, hg]
  · intro hc
    simp [raw_request_pipeline, get_connection, hc]
  · intro hc hout
    subst hout
    rcases c with ⟨r, w, cl⟩
    cases w <;> cases cl <;>
      simp_all [raw_request_pipeline, get_connection, open_connection,
        ConnState.closed]
  · intro hc hout
    have hg := (closed_iff_guard c).mp hc
    cases outcome with
    | success => exact absurd rfl hout
    | timedOut =>
      simp [raw_request_pipeline, get_connection, open_connection, hc, hg]
    | osError =>
      simp [raw_request_pipeline, get_connection, open_connection, hc, hg]

/-- Claim C9 witness: a fresh (closed) connection makes one successful
connect attempt and writes; an open connection makes none. -/
theorem request_connects_once_witness :
    (raw_request_pipeline (ConnState.mk false false false)
      ConnectOutcome.success true [ReadEvent.line "R:GVL 45\r"]).2.2.1 = 1 ∧
    (raw_request_pipeline (ConnState.mk true true false)
      ConnectOutcome.success true [ReadEvent.line "R:GVL 45\r"]).2.2.1 = 0 :=
  ⟨(request_connects_once (ConnState.mk false false false)
      ConnectOutcome.success true [ReadEvent.line "R:GVL 45\r"]).1 (by decide),
   ((request_connects_once (ConnState.mk true true false)
      ConnectOutcome.success true [ReadEvent.line "R:GVL 45\r"]).2.1
      (by decide)).1⟩

/-- Claim C10: a failed connect attempt in `open` (timeout or OS error)
leaves the reader and writer streams unchanged, so the connection still
reports closed and a subsequent call makes a connect attempt again: `open`
changes state only on success. -/
theorem open_atomic_on_failure (c : ConnState) (outcome : ConnectOutcome)
    (hclosed : c.closed = true) (hfail : outcome ≠ ConnectOutcome.success) :
    (open_connection c outcome).2.1 = c ∧
    ((open_connection c outcome).2.1).closed = true ∧
    (∃ e, (open_connection c outcome).1 = Except.error e) ∧
    (outcome = ConnectOutcome.timedOut →
      (open_connection c outcome).1
        = Except.error ClientError.timeoutError) ∧
    (outcome = ConnectOutcome.osError →
      (open_connection c outcome).1
        = Except.error ClientError.connectionError) ∧
    (∀ outcome2,
      (open_connection ((open_connection c outcome).2.1) outcome2).2.2
        = 1) := by
  have hg := (closed_iff_guard c).mp hclosed
  cases outcome with
  | success => exact absurd rfl hfail
  | timedOut =>
    refine ⟨by simp [open_connection, hg], ?_, ?_, ?_, ?_, ?_⟩
    · simp [open_connection, hg, hclosed]
    · exact ⟨ClientError.timeoutError, by simp [open_connection, hg]⟩
    · intro hcontra
      simp [open_connection, hg]
    · intro hcontra
      exact absurd hcontra (by decide)
    · intro outcome2
      cases outcome2 <;> simp [open_connection, hg]
  | osError =>
    refine ⟨by simp [open_connection, hg], ?_, ?_, ?_, ?_, ?_⟩
    · simp [open_connection, hg, hclosed]
    · exact ⟨ClientError.connectionError, by simp [open_connection, hg]⟩
    · intro hcontra
      exact absurd hcontra (by decide)
    · intro hcontra
      simp [open_connection, hg]
    · intro outcome2
      cases outcome2 <;> simp [open_connection, hg]

/-- Claim C10 witness: a never-opened connection whose connect attempt times
out stays closed and untouched. -/
theorem open_atomic_on_failure_witness :
    (ConnState.mk false false false).closed = true ∧
    (open_connection (ConnState.mk false false false)
      ConnectOutcome.timedOut).2.1 = ConnState.mk false false false ∧
    ((open_connection (ConnState.mk false false false)
      ConnectOutcome.timedOut).2.1).closed = true :=
  ⟨by decide,
   (open_atomic_on_failure (ConnState.mk false false false)
      ConnectOutcome.timedOut (by decide) (by decide)).1,
   (open_atomic_on_failure (ConnState.mk false false false)
      ConnectOutcome.timedOut (by decide) (by decide)).2.1⟩

/-- A command parameter: the source's permissive string | int | Decimal
union (commands.py line 68), as a closed variant. -/
inductive Param where
  | str (s : String)
  | int (n : Int)
  | dec (ip : Int) (fracDigits : List Nat)
  deriving DecidableEq, Repr

/-- The character of one decimal digit (the code point 48 + d, for
d < 10). -/
def digitChar (d : Nat) : Char :=
  Char.ofNat (48 + d % 10)

/-- Decimal digits of a natural number, most significant first (fuel-based so
that it evaluates by reduction; fuel `n + 1` always suffices). -/
def natCharsAux : Nat → Nat → List Char → List Char
  | 0, _, acc => acc
  | fuel + 1, n, acc =>
    if n < 10 then digitChar n :: acc
    else natCharsAux fuel (n / 10) (digitChar (n % 10) :: acc)

def natChars (n : Nat) : List Char :=
  natCharsAux (n + 1) n []

/-- Modelled from the spec: the plain textual form of an integer
parameter. -/
def intChars (n : Int) : List Char :=
  if n < 0 then '-' :: natChars n.natAbs else natChars n.toNat

/-- Modelled from the spec: the plain textual form of a decimal parameter
(integer part, dot, fraction digits). -/
def decChars (ip : Int) (fracDigits : List Nat) : List Char :=
  intChars ip ++ '.' :: fracDigits.map digitChar

/-- The parameter value as a string (the "params-as-strings" reading): the
string itself for string parameters, the plain textual form for numbers. -/
def strChars : Param → List Char
  | Param.str s => s.data
  | Param.int n => intChars n
  | Param.dec ip fds => decChars ip fds

/-- Modelled from the spec: the encoding of one parameter inside
`encode_params` (its source file `utils.py` is not part of the sources
given): integers and decimals render as their plain textual form; strings
render bare unless they contain a space or `force_quotes` is set, in which
case they are wrapped in double quotes. -/
def encode_param (force_quotes : Bool) : Param → List Char
  | Param.str s =>
    if s.data.contains ' ' || force_quotes then '"' :: (s.data ++ ['"'])
    else s.data
  | Param.int n => intChars n
  | Param.dec ip fds => decChars ip fds

/-- Parameters joined with a single space. -/
def joinSp : List (List Char) → List Char
  | [] => []
  | [x] => x
  | x :: y :: ys => x ++ ' ' :: joinSp (y :: ys)

/-- Modelled from the spec: `encode_params` over a parameter sequence. -/
def encode_params (force_quotes : Bool) (params : List Param) : String :=
  String.mk (joinSp (params.map (encode_param force_quotes)))

theorem digitChar_plain (d : Nat) :
    isWs (digitChar d) = false ∧ digitChar d ≠ '"' := by
  unfold digitChar
  generalize hk : d % 10 = k
  have hlt : k < 10 := hk ▸ Nat.mod_lt d (by decide)
  interval_cases k <;> exact ⟨by decide, by decide⟩

theorem natCharsAux_mem (fuel : Nat) :
    ∀ (n : Nat) (acc : List Char), ∀ c ∈ natCharsAux fuel n acc,
      (∃ d, c = digitChar d) ∨ c ∈ acc := by
  induction fuel with
  | zero => intro n acc c hc; exact Or.inr hc
  | succ fuel ih =>
    intro n acc c hc
    simp only [natCharsAux] at hc
    split at hc
    · rcases List.mem_cons.mp hc with hc | hc
      · exact Or.inl ⟨n, hc⟩
      · exact Or.inr hc
    · rcases ih (n / 10) (digitChar (n % 10) :: acc) c hc with h | h
      · exact Or.inl h
      · rcases List.mem_cons.mp h with h | h
        · exact Or.inl ⟨n % 10, h⟩
        · exact Or.inr h

theorem natChars_plain (n : Nat) :
    ∀ c ∈ natChars n, isWs c = false ∧ c ≠ '"' := by
  intro c hc
  rcases natCharsAux_mem (n + 1) n [] c hc with ⟨d, hd⟩ | h
  · subst hd
    exact digitChar_plain d
  · exact absurd h (List.not_mem_nil c)

theorem natCharsAux_ne_nil (fuel : Nat) :
    ∀ (n : Nat) (acc : List Char), acc ≠ [] →
      natCharsAux fuel n acc ≠ [] := by
  induction fuel with
  | zero => intro n acc h; exact h
  | succ fuel ih =>
    intro n acc h
    simp only [natCharsAux]
    split
    · simp
    · exact ih (n / 10) (digitChar (n % 10) :: acc) (by simp)

theorem natChars_ne_nil (n : Nat) : natChars n ≠ [] := by
  unfold natChars
  simp only [natCharsAux]
  split
  · simp
  · exact natCharsAux_ne_nil n (n / 10) (digitChar (n % 10) :: []) (by simp)

theorem intChars_plain (n : Int) :
    ∀ c ∈ intChars n, isWs c = false ∧ c ≠ '"' := by
  unfold intChars
  split
  · intro c hc
    rcases List.mem_cons.mp hc with h | h
    · subst h
      exact ⟨by decide, by decide⟩
    · exact natChars_plain _ c h
  · exact natChars_plain _

theorem intChars_ne_nil (n : Int) : intChars n ≠ [] := by
  unfold intChars
  split
  · simp
  · exact natChars_ne_nil _

theorem decChars_plain (ip : Int) (fds : List Nat) :
    ∀ c ∈ decChars ip fds, isWs c = false ∧ c ≠ '"' := by
  intro c hc
  rcases List.mem_append.mp hc with h | h
  · exact intChars_plain ip c h
  · rcases List.mem_cons.mp h with h | h
    · subst h
      exact ⟨by decide, by decide⟩
    · rcases List.mem_map.mp h with ⟨d, _, hd⟩
      subst hd
      exact digitChar_plain d

theorem decChars_ne_nil (ip : Int) (fds : List Nat) : decChars ip fds ≠ [] := by
  intro h
  have hlen := congrArg List.length h
  simp [decChars] at hlen

/-- A bare (unquoted) token: nonempty, with no whitespace and no double
quote among its characters. -/
def PlainTok (t : List Char) : Prop :=
  t ≠ [] ∧ ∀ c ∈ t, isWs c = false ∧ c ≠ '"'

theorem spanNotWs_all (xs : List Char) (h : ∀ c ∈ xs, isWs c = false) :
    spanNotWs xs = (xs, []) := by
  induction xs with
  | nil => rfl
  | cons c cs ih =>
    have hc := h c (List.mem_cons_self c cs)
    have ihr := ih (fun x hx => h x (List.mem_cons_of_mem c hx))
    simp [spanNotWs, hc, ihr]

theorem spanNotWs_append_ws (xs r : List Char)
    (h : ∀ c ∈ xs, isWs c = false) :
    spanNotWs (xs ++ ' ' :: r) = (xs, ' ' :: r) := by
  induction xs with
  | nil => simp [spanNotWs, isWs]
  | cons c cs ih =>
    have hc := h c (List.mem_cons_self c cs)
    have ihr := ih (fun x hx => h x (List.mem_cons_of_mem c hx))
    simp [spanNotWs, hc, ihr]

theorem splitQuoted_append (body r : List Char)
    (h : ∀ c ∈ body, c ≠ '"') :
    splitQuoted (body ++ '"' :: r) = (body, r) := by
  induction body with
  | nil => simp [splitQuoted]
  | cons c cs ih =>
    have hc := h c (List.mem_cons_self c cs)
    have ihr := ih (fun x hx => h x (List.mem_cons_of_mem c hx))
    simp [splitQuoted, hc, ihr]

theorem tokenizeChars_ws_cons (c : Char) (r : List Char) (h : isWs c = true) :
    tokenizeChars (c :: r) = tokenizeChars r := by
  simp [tokenizeChars, h]

theorem tokenizeChars_bare_sep (t r : List Char) (hp : PlainTok t) :
    tokenizeChars (t ++ ' ' :: r) = t :: tokenizeChars r := by
  obtain ⟨hne, hall⟩ := hp
  cases t with
  | nil => exact absurd rfl hne
  | cons c cs =>
    have hc := hall c (List.mem_cons_self c cs)
    have hcs : ∀ x ∈ cs, isWs x = false :=
      fun x hx => (hall x (List.mem_cons_of_mem c hx)).1
    rw [List.cons_append]
    simp only [tokenizeChars, hc.1]
    rw [if_neg (by simp), if_neg hc.2, spanNotWs_append_ws cs r hcs,
      tokenizeChars_ws_cons ' ' r (by decide)]

theorem tokenizeChars_bare_nil (t : List Char) (hp : PlainTok t) :
    tokenizeChars t = [t] := by
  obtain ⟨hne, hall⟩ := hp
  cases t with
  | nil => exact absurd rfl hne
  | cons c cs =>
    have hc := hall c (List.mem_cons_self c cs)
    have hcs : ∀ x ∈ cs, isWs x = false :=
      fun x hx => (hall x (List.mem_cons_of_mem c hx)).1
    simp only [tokenizeChars, hc.1]
    rw [if_neg (by simp), if_neg hc.2, spanNotWs_all cs hcs]
    simp [tokenizeChars]

theorem tokenizeChars_quoted_sep (body r : List Char)
    (h : ∀ c ∈ body, c ≠ '"') :
    tokenizeChars ('"' :: (body ++ '"' :: ' ' :: r))
      = body :: tokenizeChars r := by
  simp only [tokenizeChars]
  rw [if_neg (by decide), if_pos trivial,
    splitQuoted_append body (' ' :: r) h,
    tokenizeChars_ws_cons ' ' r (by decide)]

theorem tokenizeChars_quoted_nil (body : List Char)
    (h : ∀ c ∈ body, c ≠ '"') :
    tokenizeChars ('"' :: (body ++ ['"'])) = [body] := by
  simp only [tokenizeChars]
  rw [if_neg (by decide), if_pos trivial, splitQuoted_append body [] h]
  simp [tokenizeChars]

/-- The claim's own precondition on a parameter: no embedded double-quote
characters. -/
def noQuoteParam : Param → Bool
  | Param.str s => s.data.all (fun c => c != '"')
  | Param.int _ => true
  | Param.dec _ _ => true

/-- The round-trippable parameters: no embedded double quote, and a string
parameter that will be rendered bare (no space, quoting not forced) must be
nonempty and free of all whitespace. -/
def goodParam : Param → Bool
  | Param.str s =>
    s.data.all (fun c => c != '"') &&
      (s.data.contains ' ' || (!s.data.isEmpty && s.data.all (fun c => !isWs c)))
  | Param.int _ => true
  | Param.dec _ _ => true

theorem encode_param_shape (p : Param) (h : goodParam p = true) :
    (PlainTok (encode_param false p) ∧ encode_param false p = strChars p) ∨
    (encode_param false p = '"' :: (strChars p ++ ['"']) ∧
      ∀ c ∈ strChars p, c ≠ '"') := by
  cases p with
  | int n =>
    exact Or.inl ⟨⟨intChars_ne_nil n, intChars_plain n⟩, rfl⟩
  | dec ip fds =>
    exact Or.inl ⟨⟨decChars_ne_nil ip fds, decChars_plain ip fds⟩, rfl⟩
  | str s =>
    simp only [goodParam, Bool.and_eq_true, Bool.or_eq_true,
      List.all_eq_true] at h
    obtain ⟨hq, hrest⟩ := h
    have hq2 : ∀ c ∈ s.data, c ≠ '"' := fun c hc => bne_iff_ne.mp (hq c hc)
    cases hsp : s.data.contains ' ' with
    | true =>
      refine Or.inr ⟨?_, hq2⟩
      simp only [encode_param, strChars, hsp, Bool.or_false]
      rw [if_pos trivial]
    | false =>
      rcases hrest with hsp2 | ⟨hne, hws⟩
      · rw [hsp] at hsp2
        exact absurd hsp2 (by decide)
      · have hE : encode_param false (Param.str s) = s.data := by
          simp only [encode_param, hsp, Bool.or_false]
          rw [if_neg (by decide)]
        refine Or.inl ⟨?_, hE⟩
        rw [hE]
        refine ⟨?_, ?_⟩
        · intro hnil
          rw [hnil] at hne
          exact absurd hne (by decide)
        · intro c hc
          refine ⟨?_, hq2 c hc⟩
          have hwc := hws c hc
          revert hwc
          cases isWs c <;> simp

theorem tokenize_encode_cons (p : Param) (r : List Char)
    (h : goodParam p = true) :
    tokenizeChars (encode_param false p ++ ' ' :: r)
      = strChars p :: tokenizeChars r := by
  rcases encode_param_shape p h with ⟨hp, he⟩ | ⟨he, hq⟩
  · rw [he] at hp
    rw [he]
    exact tokenizeChars_bare_sep _ _ hp
  · rw [he]
    have hassoc : '"' :: (strChars p ++ ['"']) ++ ' ' :: r
        = '"' :: (strChars p ++ '"' :: ' ' :: r) := by
      simp
    rw [hassoc]
    exact tokenizeChars_quoted_sep _ _ hq

theorem tokenize_encode_single (p : Param) (h : goodParam p = true) :
    tokenizeChars (encode_param false p) = [strChars p] := by
  rcases encode_param_shape p h with ⟨hp, he⟩ | ⟨he, hq⟩
  · rw [he] at hp
    rw [he]
    exact tokenizeChars_bare_nil _ hp
  · rw [he]
    exact tokenizeChars_quoted_nil _ hq

theorem tokenize_encode_chars (params : List Param)
    (h : ∀ p ∈ params, goodParam p = true) :
    tokenizeChars (joinSp (params.map (encode_param false)))
      = params.map strChars := by
  induction params with
  | nil => simp [joinSp, tokenizeChars]
  | cons p ps ih =>
    cases ps with
    | nil =>
      simp only [List.map, joinSp]
      rw [tokenize_encode_single p (h p (List.mem_cons_self p []))]
    | cons q qs =>
      have hjoin : joinSp ((p :: q :: qs).map (encode_param false))
          = encode_param false p
              ++ ' ' :: joinSp ((q :: qs).map (encode_param false)) := rfl
      rw [hjoin, tokenize_encode_cons p _ (h p (List.mem_cons_self p (q :: qs))),
        ih (fun x hx => h x (List.mem_cons_of_mem p hx))]
      rfl

/-- Claim C5 counterexample: the empty string parameter contains no double
quote, yet is rendered bare as the empty word, so the encoded line is empty
and tokenizes to no tokens at all — the parameter is lost. -/
theorem tokenize_encode_counterexample :
    (∀ p ∈ [Param.str ""], noQuoteParam p = true) ∧
    tokenize_response (encode_params false [Param.str ""]) = [] ∧
    ([] : List String) ≠ [""] := by
  refine ⟨by decide, ?_, by decide⟩
  simp [tokenize_response, encode_params, joinSp, encode_param, tokenizeChars]

/-- Claim C5 (amended): for every sequence of parameters without embedded
double-quote characters, in which every string parameter that would be
rendered bare (contains no space) is nonempty and free of all whitespace,
tokenizing the encoded parameter string recovers exactly the original
parameter values, each as its string rendering, in order. -/
theorem tokenize_encode_roundtrip (params : List Param)
    (h : ∀ p ∈ params, goodParam p = true) :
    tokenize_response (encode_params false params)
      = params.map (fun p => String.mk (strChars p)) := by
  simp only [tokenize_response, encode_params]
  rw [tokenize_encode_chars params h, List.map_map]
  rfl

/-- Claim C5 witness: a bare string, an integer and a quoted string with an
embedded space all round-trip. -/
theorem tokenize_encode_roundtrip_witness :
    (∀ p ∈ [Param.str "hello", Param.int 45, Param.str "a b"],
      goodParam p = true) ∧
    tokenize_response
        (encode_params false [Param.str "hello", Param.int 45, Param.str "a b"])
      = ([Param.str "hello", Param.int 45, Param.str "a b"]).map
          (fun p => String.mk (strChars p)) ∧
    ([Param.str "hello", Param.int 45, Param.str "a b"]).map
        (fun p => String.mk (strChars p)) = ["hello", "45", "a b"] :=
  ⟨by decide,
   tokenize_encode_roundtrip
     [Param.str "hello", Param.int 45, Param.str "a b"] (by decide),
   by decide⟩

end VantageQLink
